import Mathlib

/-!
# go-proxy-demo: a shallow embedding of the dispatch and tunnel code

The Go sources embedded here are `proxy.go`, `main.go`, `admin.go`,
`config.go`, `stats.go` and `serve.go`.  Go strings are Lean strings, read
through their character lists.  Calls into collaborators (the rule provider,
the reverse proxy, the response writer, the SQLite store) are recorded as a
list of effects in the order in which the code performs them.  What the
library function `http.Redirect` makes of a redirect is modelled apart, with
the result of `url.Parse` as an argument.  Logging is left out: it has no
influence on control flow.
-/

namespace GoProxy

/-! ## Go standard library helpers used by the sources -/

/-- Go `strings.HasSuffix`:
`len(s) >= len(suffix) && s[len(s)-len(suffix):] == suffix`. -/
def HasSuffix (s suffix : String) : Bool :=
  decide (suffix.data.length ≤ s.data.length) &&
    (s.data.drop (s.data.length - suffix.data.length) == suffix.data)

/-- Go `strings.HasPrefix`:
`len(s) >= len(prefix) && s[:len(prefix)] == prefix`. -/
def HasPrefix (s pre : String) : Bool :=
  decide (pre.data.length ≤ s.data.length) &&
    (s.data.take pre.data.length == pre.data)

/-- Go `error` values are represented by their message. -/
abbrev Error := String

/-- Go `http.Header`, a map from header name to its list of values. -/
abbrev Header := List (String × List String)

/-- Go `Header.Set`: the entry for `key` is replaced by the single value.
Both keys used by the sources are already in canonical MIME form. -/
def Header.Set (h : Header) (key value : String) : Header :=
  (key, [value]) :: h.filter (fun kv => kv.1 != key)

/-- Go `Header.Get`: the first value stored for `key`, or `""`. -/
def Header.Get (h : Header) (key : String) : String :=
  match h.find? (fun kv => kv.1 == key) with
  | some (_, v :: _) => v
  | _ => ""

/-- Go `Header.Values`: all values stored for `key`. -/
def Header.Values (h : Header) (key : String) : List String :=
  match h.find? (fun kv => kv.1 == key) with
  | some (_, vs) => vs
  | none => []

/-- The fields of Go `url.URL` the sources read or write. -/
structure URL where
  Scheme : String
  Host : String
  Path : String
  RawQuery : String
deriving DecidableEq, Repr

/-- The fields of Go `http.Request` the sources read or write. -/
structure Request where
  Method : String
  Host : String
  URL : URL
  Header : Header
deriving DecidableEq, Repr

/-! ## config.go -/

/-- The struct `Config`. -/
structure Config where
  HTTPPort : Int
  HTTPSPort : Int
  V1Host : String
  V2Host : String
  APIKey : String
  IgnoreTLSErrors : Bool
  IsDev : Bool
deriving DecidableEq, Repr

/-! ## proxy.go -/

/-- The variable `specialPort`. -/
def specialPort : String := ":4443"

/-- `http.StatusInternalServerError`. -/
def StatusInternalServerError : Nat := 500

/-- `http.StatusTemporaryRedirect`. -/
def StatusTemporaryRedirect : Nat := 307

/-- The interface `RuleProvder`: each lookup returns a string and an error
(`none` is Go `nil`).  A lookup reads the request and leaves it as it is, as
the two lookups of `adminService` do. -/
structure RuleProvder where
  GetProxyRule : Request → String × Option Error
  GetRedirectRule : Request → String × Option Error

/-- The struct `Proxy`: the embedded config and rule provider.  The embedded
reverse proxy is the collaborator behind `Effect.reverseProxy`. -/
structure Proxy where
  Config : Config
  RuleProvder : RuleProvder

/-- What a handler does, in order. -/
inductive Effect where
  /-- `p.GetProxyRule(r)`. -/
  | getProxyRule (r : Request)
  /-- `p.GetRedirectRule(r)`. -/
  | getRedirectRule (r : Request)
  /-- `p.ReverseProxy.ServeHTTP(w, r)`. -/
  | reverseProxy (r : Request)
  /-- `w.WriteHeader(code)`. -/
  | writeHeader (code : Nat)
  /-- `w.Write(body)`. -/
  | write (body : String)
  /-- `http.Redirect(w, r, url, code)`. -/
  | redirect (url : String) (code : Nat)
  /-- `admin.ProxyRules(w, r)`. -/
  | adminProxyRules (r : Request)
  /-- `admin.RedirectRules(w, r)`. -/
  | adminRedirectRules (r : Request)
  /-- `stats.ServeHTTP(w, r)`. -/
  | statsServe (r : Request)
deriving DecidableEq, Repr

/-- True of the effects that belong to `Proxy.ServeHTTP`: a rule lookup, a
forward through the reverse proxy, a redirect or a response it writes. -/
def Effect.isProxyWork : Effect → Bool
  | .getProxyRule _ => true
  | .getRedirectRule _ => true
  | .reverseProxy _ => true
  | .redirect _ _ => true
  | .writeHeader _ => true
  | .write _ => true
  | _ => false

/-- The function `prepRequestForProxy`. -/
def prepRequestForProxy (r : Request) (toDomain : String) : Request :=
  let r1 : Request := { r with URL := { r.URL with Scheme := "https" } }
  let r2 : Request := { r1 with Header := r1.Header.Set "X-Forwarded-Host" r1.Host }
  let r3 : Request := { r2 with Header := r2.Header.Set "X-Forwarded-Proto" "https" }
  { r3 with URL := { r3.URL with Host := toDomain } }

/-- The method `Proxy.ServeHTTP`. -/
def Proxy.ServeHTTP (p : Proxy) (r : Request) : List Effect :=
  if HasSuffix r.Host specialPort then
    [.reverseProxy (prepRequestForProxy r (p.Config.V1Host ++ specialPort))]
  else
    match p.RuleProvder.GetProxyRule r with
    | (_, some _) =>
      [.getProxyRule r, .writeHeader StatusInternalServerError, .write "Proxy error"]
    | (toDomain, none) =>
      if toDomain ≠ "" then
        [.getProxyRule r, .reverseProxy (prepRequestForProxy r toDomain)]
      else
        match p.RuleProvder.GetRedirectRule r with
        | (_, some _) =>
          [.getProxyRule r, .getRedirectRule r,
            .writeHeader StatusInternalServerError, .write "Proxy error"]
        | (toUrl, none) =>
          if toUrl ≠ "" then
            [.getProxyRule r, .getRedirectRule r, .redirect toUrl StatusTemporaryRedirect]
          else
            [.getProxyRule r, .getRedirectRule r,
              .reverseProxy (prepRequestForProxy r p.Config.V1Host)]

/-! ## main.go -/

/-- The handler registered on `"/"` in `main`. -/
def rootHandler (p : Proxy) (r : Request) : List Effect :=
  if HasPrefix r.URL.Path "/goproxy/proxy-rules" then [.adminProxyRules r]
  else if HasPrefix r.URL.Path "/goproxy/redirect-rules" then [.adminRedirectRules r]
  else if HasPrefix r.URL.Path "/goproxy" then [.statsServe r]
  else p.ServeHTTP r

/-! ## admin.go -/

/-- Go `strings.Index`: the position of the first occurrence of `substr` in
`s`; `none` stands for `-1`.  Positions count characters, and the slices
taken at them are the same strings as the byte slices of the Go code. -/
def Index : List Char → List Char → Option Nat
  | [], substr => if substr.isEmpty then some 0 else none
  | c :: t, substr =>
    if substr.isPrefixOf (c :: t) then some 0 else (Index t substr).map (· + 1)

/-- Go `strings.Count` for a non-empty `substr`: the number of
non-overlapping occurrences.  The first argument bounds the loop. -/
def countLoop (substr : List Char) : Nat → List Char → Nat
  | 0, _ => 0
  | fuel + 1, s =>
    match Index s substr with
    | none => 0
    | some i => countLoop substr fuel (s.drop (i + substr.length)) + 1

/-- Go `strings.explode`: at most `n` pieces, one character each except the
last. -/
def explode : List Char → Nat → List (List Char)
  | _, 0 => []
  | [], _ => []
  | c :: t, k + 1 => if k = 0 ∨ t = [] then [c :: t] else [c] :: explode t k

/-- The loop of Go `strings.genSplit` with `sepSave = 0`: at most `k` cuts. -/
def genSplitLoop (sep : List Char) : Nat → List Char → List (List Char)
  | 0, s => [s]
  | k + 1, s =>
    match Index s sep with
    | none => [s]
    | some m => s.take m :: genSplitLoop sep k (s.drop (m + sep.length))

/-- Go `strings.SplitN`. -/
def SplitN (s sep : String) (n : Int) : List String :=
  if n = 0 then []
  else if sep = "" then
    (explode s.data (if n < 0 ∨ n > s.data.length then s.data.length else n.toNat)).map String.mk
  else
    let n1 : Nat := if n < 0 then countLoop sep.data (s.data.length + 1) s.data + 1 else n.toNat
    let n2 : Nat := if n1 > s.utf8ByteSize + 1 then s.utf8ByteSize + 1 else n1
    (genSplitLoop sep.data (n2 - 1) s.data).map String.mk

/-- The function `hostname`; `none` is the index-out-of-range panic of `[0]`. -/
def hostname (r : Request) : Option String :=
  (SplitN r.Host ":" 2)[0]?

/-- The regular expressions of the sources are built from these items. -/
inductive Re where
  /-- The anchor `^`. -/
  | bol
  /-- The anchor `$` (end of text, no multi-line flag). -/
  | eol
  /-- One literal character. -/
  | lit (c : Char)
  /-- A character class repeated one or more times, greedy. -/
  | plus (cls : Char → Bool)

/-- Greedy matching of `cls+` followed by the rest of the pattern, given as
the matcher `next`: one character of the class, then as many more as still
let the rest match. -/
def matchPlus (cls : Char → Bool) (next : List Char → Option (List Char)) :
    List Char → Option (List Char)
  | [] => none
  | x :: s =>
    if cls x then
      match matchPlus cls next s with
      | some m => some (x :: m)
      | none => (next s).map (x :: ·)
    else none

/-- Leftmost-first matching of a sequence of items at the current position.
`atStart` tells whether the position is the beginning of the text.  The
result is the matched text. -/
def matchHere : List Re → Bool → List Char → Option (List Char)
  | [], _, _ => some []
  | .bol :: rest, atStart, s => if atStart then matchHere rest atStart s else none
  | .eol :: rest, atStart, s => if s.isEmpty then matchHere rest atStart s else none
  | .lit c :: rest, _, s =>
    match s with
    | [] => none
    | x :: t => if x = c then (matchHere rest false t).map (x :: ·) else none
  | .plus cls :: rest, _, s => matchPlus cls (matchHere rest false) s

/-- The leftmost match: start positions are tried from left to right. -/
def findAt (re : List Re) : Bool → List Char → Option (List Char)
  | atStart, [] => matchHere re atStart []
  | atStart, x :: s =>
    match matchHere re atStart (x :: s) with
    | some m => some m
    | none => findAt re false s

/-- Go `Regexp.FindString`: the text of the leftmost match, `""` if none. -/
def FindString (re : List Re) (s : String) : String :=
  match findAt re true s.data with
  | some m => String.mk m
  | none => ""

/-- The class `[a-z\-_0-9.]`. -/
def domainClass (c : Char) : Bool :=
  ('a' ≤ c && c ≤ 'z') || c == '-' || c == '_' || ('0' ≤ c && c ≤ '9') || c == '.'

/-- The class `[a-z\-_0-9]`. -/
def typeClass (c : Char) : Bool :=
  ('a' ≤ c && c ≤ 'z') || c == '-' || c == '_' || ('0' ≤ c && c ≤ '9')

/-- The class `[0-9]`. -/
def digitClass (c : Char) : Bool :=
  '0' ≤ c && c ≤ '9'

/-- The variable `prefixReg`, `^[a-z\-_0-9.]+\/[a-z\-_0-9]+\/[0-9]+$`. -/
def prefixReg : List Re :=
  [.bol, .plus domainClass, .lit '/', .plus typeClass, .lit '/', .plus digitClass, .eol]

/-- The shape `{domain}/{category}/{numeric-id}`, taken as a whole: a
non-empty domain of `[a-z\-_0-9.]`, a slash, a non-empty category of
`[a-z\-_0-9]`, a slash and a non-empty run of digits. -/
def IsRedirectShape (s : String) : Prop :=
  ∃ d c n : List Char, s.data = d ++ '/' :: (c ++ '/' :: n)
    ∧ d ≠ [] ∧ (∀ x ∈ d, domainClass x = true)
    ∧ c ≠ [] ∧ (∀ x ∈ c, typeClass x = true)
    ∧ n ≠ [] ∧ (∀ x ∈ n, digitClass x = true)

/-- The outcome of `db.QueryRow(...).Scan(&x)`. -/
inductive RowResult where
  /-- `sql.ErrNoRows`. -/
  | errNoRows
  /-- Any other error. -/
  | failed (e : Error)
  /-- The scanned column. -/
  | value (v : String)
deriving DecidableEq, Repr

/-- A two-column table keyed by its first column, and the error the store
answers every query with while it is unavailable. -/
structure Table where
  rows : List (String × String)
  failure : Option Error
deriving DecidableEq, Repr

/-- The statement `SELECT value FROM table WHERE key=@key`, scanned. -/
def Table.QueryRow (t : Table) (key : String) : RowResult :=
  match t.failure with
  | some e => .failed e
  | none =>
    match t.rows.find? (fun row => row.1 == key) with
    | some (_, v) => .value v
    | none => .errNoRows

/-- The tables created by `migrateUp`. -/
structure DB where
  proxy_rules : Table
  redirect_rules : Table
deriving DecidableEq, Repr

/-- The struct `adminService`. -/
structure adminService where
  Config : Config
  db : DB

/-- A query sent to the store, with the value of its named parameter. -/
inductive Query where
  /-- `SELECT version FROM proxy_rules WHERE domain=@domain`. -/
  | proxyRule (domain : String)
  /-- `SELECT to_url FROM redirect_rules WHERE prefix=@prefix`. -/
  | redirectRule (key : String)
deriving DecidableEq, Repr

/-- The method `adminService.GetProxyRule`: the returned pair and the queries
sent to the store; `none` is a panic. -/
def adminService.GetProxyRule (admin : adminService) (r : Request) :
    Option ((String × Option Error) × List Query) :=
  match hostname r with
  | none => none
  | some host =>
    match admin.db.proxy_rules.QueryRow host with
    | .errNoRows => some (("", none), [.proxyRule host])
    | .failed e => some (("", some e), [.proxyRule host])
    | .value version =>
      if version = "v1" then some ((admin.Config.V1Host, none), [.proxyRule host])
      else if version = "v2" then some ((admin.Config.V2Host, none), [.proxyRule host])
      else some (("", none), [.proxyRule host])

/-- The method `adminService.GetRedirectRule`: the returned pair and the
queries sent to the store; `none` is a panic. -/
def adminService.GetRedirectRule (admin : adminService) (r : Request) :
    Option ((String × Option Error) × List Query) :=
  match hostname r with
  | none => none
  | some host =>
    let pre := FindString prefixReg (host ++ r.URL.Path)
    if pre = "" then some (("", none), [])
    else
      match admin.db.redirect_rules.QueryRow pre with
      | .errNoRows => some (("", none), [.redirectRule pre])
      | .failed e => some (("", some e), [.redirectRule pre])
      | .value toUrl => some ((toUrl, none), [.redirectRule pre])

/-! ## The library function `http.Redirect` called by `Proxy.ServeHTTP` -/

/-- Go `strings.LastIndex` for a one-byte separator; `none` stands for `-1`. -/
def lastIndexByte (c : Char) : List Char → Option Nat
  | [] => none
  | x :: t =>
    match lastIndexByte c t with
    | some i => some (i + 1)
    | none => if x = c then some 0 else none

/-- Go `path.Split`: the path up to and including its last slash, and the
rest. -/
def pathSplit (path : String) : String × String :=
  match lastIndexByte '/' path.data with
  | some i => (String.mk (path.data.take (i + 1)), String.mk (path.data.drop (i + 1)))
  | none => ("", path)

/-- The inner loop of a `..` element in Go `path.Clean`, entered after the
first `out.w--` with the write index `w`:
`for out.w > dotdot && out.index(out.w) != '/' { out.w-- }`. -/
def backtrackLoop (buf : List Char) (dotdot : Nat) : Nat → Nat
  | 0 => 0
  | w + 1 =>
    if w + 1 > dotdot ∧ buf[w + 1]? ≠ some '/' then backtrackLoop buf dotdot w else w + 1

/-- The loop `for r < n` of Go `path.Clean`: `rest` is the unread part of the
path, `out` the bytes written so far, `dotdot` the index where `..` must
stop.  The first argument bounds the number of rounds. -/
def cleanLoop (rooted : Bool) : Nat → List Char → List Char → Nat → List Char
  | 0, _, out, _ => out
  | _ + 1, [], out, _ => out
  | fuel + 1, c :: t, out, dotdot =>
    if c = '/' then
      cleanLoop rooted fuel t out dotdot
    else if c = '.' ∧ (t = [] ∨ t.head? = some '/') then
      cleanLoop rooted fuel t out dotdot
    else if c = '.' ∧ t.head? = some '.' ∧ (t.tail = [] ∨ t.tail.head? = some '/') then
      if out.length > dotdot then
        cleanLoop rooted fuel t.tail
          (out.take (backtrackLoop out dotdot (out.length - 1))) dotdot
      else if rooted = false then
        cleanLoop rooted fuel t.tail
          ((if out.length > 0 then out ++ ['/'] else out) ++ ['.', '.'])
          ((if out.length > 0 then out ++ ['/'] else out) ++ ['.', '.']).length
      else
        cleanLoop rooted fuel t.tail out dotdot
    else
      cleanLoop rooted fuel ((c :: t).dropWhile (· != '/'))
        ((if (rooted = true ∧ out.length ≠ 1) ∨ (rooted = false ∧ out.length ≠ 0)
            then out ++ ['/'] else out) ++ (c :: t).takeWhile (· != '/'))
        dotdot

/-- Go `path.Clean`. -/
def pathClean (path : String) : String :=
  if path = "" then "."
  else
    match (if path.data.head? = some '/'
            then cleanLoop true (path.data.length + 1) (path.data.drop 1) ['/'] 1
            else cleanLoop false (path.data.length + 1) path.data [] 0) with
    | [] => "."
    | out => String.mk out

/-- The bytes of the UTF-8 encoding of a character. -/
def utf8Bytes (c : Char) : List Nat :=
  if c.toNat < 0x80 then [c.toNat]
  else if c.toNat < 0x800 then [0xC0 + c.toNat / 64, 0x80 + c.toNat % 64]
  else if c.toNat < 0x10000 then
    [0xE0 + c.toNat / 4096, 0x80 + c.toNat / 64 % 64, 0x80 + c.toNat % 64]
  else
    [0xF0 + c.toNat / 262144, 0x80 + c.toNat / 4096 % 64, 0x80 + c.toNat / 64 % 64,
      0x80 + c.toNat % 64]

/-- A lower-case hexadecimal digit. -/
def hexDigit (d : Nat) : Char :=
  "0123456789abcdef".data.getD d '0'

/-- The byte loop of Go `hexEscapeNonASCII`: a byte of `0x80` or more becomes
`%` and its two hexadecimal digits. -/
def hexEscapeChars : List Char → List Char
  | [] => []
  | c :: t =>
    if c.toNat < 0x80 then c :: hexEscapeChars t
    else
      ((utf8Bytes c).map (fun b => ['%', hexDigit (b / 16), hexDigit (b % 16)])).flatten
        ++ hexEscapeChars t

/-- Go `hexEscapeNonASCII` of `net/http`. -/
def hexEscapeNonASCII (s : String) : String :=
  String.mk (hexEscapeChars s.data)

/-- The part of the response `http.Redirect` controls that the sources rely
on: the `Location` header and the status passed to `WriteHeader`. -/
structure RedirectResponse where
  Location : String
  Status : Nat
deriving DecidableEq, Repr

/-- The step of Go `http.Redirect` for a URL without scheme and host: the URL
is made absolute against the request path `oldpath` and cleaned, the query
and a trailing slash are kept. -/
def resolveRelative (oldpath url : String) : String :=
  let base : String := if oldpath = "" then "/" else oldpath
  let url1 : String :=
    if url = "" ∨ url.data.head? ≠ some '/' then (pathSplit base).1 ++ url else url
  let cut : String × String :=
    match Index url1.data ['?'] with
    | some i => (String.mk (url1.data.take i), String.mk (url1.data.drop i))
    | none => (url1, "")
  let cleaned : String := pathClean cut.1
  (if HasSuffix cut.1 "/" = true ∧ HasSuffix cleaned "/" = false then cleaned ++ "/"
    else cleaned) ++ cut.2

/-- Go `http.Redirect(w, r, url, code)`.  `parsed` is the result of
`url.Parse(url)`, `none` when it returns an error.  The `Content-Type`
header and the HTML body it also writes for `GET` and `HEAD` are left out. -/
def Redirect (parsed : Option URL) (r : Request) (url : String) (code : Nat) :
    RedirectResponse :=
  { Location :=
      hexEscapeNonASCII
        (match parsed with
         | some u =>
           if u.Scheme = "" ∧ u.Host = "" then resolveRelative r.URL.Path url else url
         | none => url),
    Status := code }

/-! ## config.go -/

/-- The value of a decimal digit. -/
def digitValue (c : Char) : Option Nat :=
  if '0' ≤ c ∧ c ≤ '9' then some (c.toNat - '0'.toNat) else none

/-- The digit loop of Go `strconv.ParseUint` in base 10. -/
def parseDigits : List Char → Nat → Option Nat
  | [], n => some n
  | c :: t, n =>
    match digitValue c with
    | some d => parseDigits t (n * 10 + d)
    | none => none

/-- Go `strconv.Atoi` with a 64-bit `int`: an optional sign, then one or more
decimal digits, the value in the range of `int`; `none` is an error. -/
def Atoi (s : String) : Option Int :=
  let signed : Bool × List Char :=
    match s.data with
    | '-' :: t => (true, t)
    | '+' :: t => (false, t)
    | cs => (false, cs)
  if signed.2 = [] then none
  else
    match parseDigits signed.2 0 with
    | none => none
    | some n =>
      if signed.1 then (if n ≤ 2 ^ 63 then some (-(n : Int)) else none)
      else (if n < 2 ^ 63 then some (n : Int) else none)

/-- The function `NewConfig`, reading the environment through `Getenv`
(Go `os.Getenv`, `""` for an unset variable).  The text of the wrapped
`Atoi` error is left out of the first message. -/
def NewConfig (Getenv : String → String) : Except Error Config :=
  match Atoi (Getenv "LISTEN_FDS") with
  | none => .error "invalid LISTEN_FDS enviroment variable. Makes ure you run with systemd: "
  | some nfds =>
    if nfds ≠ 2 then
      .error ("two ports are required: http and https, but got " ++ toString nfds)
    else if Getenv "API_KEY" = "" then .error "API_KEY not specified"
    else if Getenv "V1_HOST" = "" then .error "V1_HOST not specified"
    else if Getenv "V2_HOST" = "" then .error "V2_HOST not specified"
    else if Getenv "IGNORE_TLS" ≠ "" ∧ Getenv "IGNORE_TLS" ≠ "false"
        ∧ Getenv "IGNORE_TLS" ≠ "true" then
      .error ("invalid IGNORE_TLS value: " ++ Getenv "IGNORE_TLS")
    else
      .ok { HTTPPort := 8080, HTTPSPort := 4433,
            V1Host := Getenv "V1_HOST", V2Host := Getenv "V2_HOST",
            APIKey := Getenv "API_KEY",
            IgnoreTLSErrors := decide (Getenv "IGNORE_TLS" = "true"),
            IsDev := decide (Getenv "DEV" = "true") }

/-! ## stats.go and serve.go -/

/-- The struct `Stats`. -/
structure Stats where
  openConnections : Int
deriving DecidableEq, Repr

/-- The wrap-around of `int64` arithmetic: the value in `[-2^63, 2^63)`
congruent to `x` modulo `2^64`. -/
def wrapInt64 (x : Int) : Int :=
  (x + 2 ^ 63) % 2 ^ 64 - 2 ^ 63

/-- The method `Stats.IncConnections`, one atomic `AddInt64`. -/
def Stats.IncConnections (stats : Stats) (amount : Int) : Stats :=
  { openConnections := wrapInt64 (stats.openConnections + amount) }

/-- Where one call of `pipeConn` stands. -/
inductive PipeState where
  /-- The goroutine `go pipeConn(...)` exists, its body has not run. -/
  | created
  /-- The counter is incremented, the decrement is deferred and `net.Dial`
  is in flight. -/
  | dialing
  /-- The dial succeeded and the two `io.Copy` are running. -/
  | relaying
  /-- The deferred calls have run and the call has returned. -/
  | returned
deriving DecidableEq, Repr

/-- What moves one call of `pipeConn` forward. -/
inductive PipeEvent where
  /-- The body starts: `defer conn.Close()`, `stats.IncConnections(1)`,
  `defer stats.IncConnections(-1)`. -/
  | start
  /-- The call `net.Dial` fails: log, return, run the deferred calls. -/
  | dialFailed
  /-- The call `net.Dial` succeeds: `defer dest.Close()`, start the copies. -/
  | dialOk
  /-- The copy `io.Copy(conn, dest)` ends, with or without an error: return,
  run the deferred calls. -/
  | relayDone (err : Bool)
deriving DecidableEq, Repr

/-- One step of `pipeConn`: the next state and the amounts passed to
`IncConnections` during the step; `none` when the event cannot happen in
the state. -/
def pipeConnStep : PipeState → PipeEvent → Option (PipeState × List Int)
  | .created, .start => some (.dialing, [1])
  | .dialing, .dialFailed => some (.returned, [-1])
  | .dialing, .dialOk => some (.relaying, [])
  | .relaying, .relayDone _ => some (.returned, [-1])
  | _, _ => none

/-- A run of one call of `pipeConn` from a state: the final state and all
amounts passed to `IncConnections`, in order. -/
def pipeConnRun : PipeState → List PipeEvent → Option (PipeState × List Int)
  | st, [] => some (st, [])
  | st, ev :: evs =>
    match pipeConnStep st ev with
    | none => none
    | some (st1, amounts) =>
      match pipeConnRun st1 evs with
      | none => none
      | some (st2, more) => some (st2, amounts ++ more)

/-- The process: the shared counter and every call of `pipeConn` so far. -/
structure Tunnel where
  stats : Stats
  conns : List PipeState
deriving DecidableEq, Repr

/-- What happens in the process. -/
inductive TunnelEvent where
  /-- The loop of `tunnelSystemd` accepts a connection: `go pipeConn(...)`. -/
  | accept
  /-- The call number `i` of `pipeConn` makes a step. -/
  | conn (i : Nat) (ev : PipeEvent)
deriving DecidableEq, Repr

/-- One atomic step of the process.  An event that cannot happen leaves the
process as it is. -/
def Tunnel.step (t : Tunnel) : TunnelEvent → Tunnel
  | .accept => { t with conns := t.conns ++ [.created] }
  | .conn i ev =>
    match t.conns[i]? with
    | none => t
    | some st =>
      match pipeConnStep st ev with
      | none => t
      | some (st1, amounts) =>
        { stats := amounts.foldl Stats.IncConnections t.stats,
          conns := t.conns.set i st1 }

/-- An interleaving of the calls of `pipeConn`. -/
def Tunnel.run (t : Tunnel) (evs : List TunnelEvent) : Tunnel :=
  evs.foldl Tunnel.step t

/-- The process at start: `stats := &Stats{}` and no connection. -/
def Tunnel.init : Tunnel :=
  { stats := { openConnections := 0 }, conns := [] }

/-- True of a call of `pipeConn` that has started and not yet returned. -/
def PipeState.isOpen : PipeState → Bool
  | .dialing => true
  | .relaying => true
  | _ => false

/-- The number of calls of `pipeConn` that have started and not yet
returned. -/
def Tunnel.openCalls (t : Tunnel) : Nat :=
  t.conns.countP PipeState.isOpen

/-! ## Sample inputs -/

/-- A configuration as `NewConfig` produces it. -/
def sampleConfig : Config :=
  { HTTPPort := 8080, HTTPSPort := 4433, V1Host := "v1.example.net",
    V2Host := "v2.example.net", APIKey := "k", IgnoreTLSErrors := false, IsDev := false }

/-- A rule provider that answers both lookups with the given pairs. -/
def constProvider (proxyRule redirectRule : String × Option Error) : RuleProvder :=
  { GetProxyRule := fun _ => proxyRule, GetRedirectRule := fun _ => redirectRule }

/-- A request `GET /blog/42` with the given `Host`. -/
def sampleRequest (host : String) : Request :=
  { Method := "GET", Host := host,
    URL := { Scheme := "", Host := "", Path := "/blog/42", RawQuery := "" },
    Header := [("Accept", ["*/*"])] }

/-- A request for `/goproxy/status` on the special port. -/
def statsRequest : Request :=
  { Method := "GET", Host := "example.com:4443",
    URL := { Scheme := "", Host := "", Path := "/goproxy/status", RawQuery := "" },
    Header := [] }

/-- What `Proxy.ServeHTTP` hands to the reverse proxy for
`sampleRequest "example.com"` when no rule applies. -/
def forwardedSample : Request :=
  { Method := "GET", Host := "example.com",
    URL := { Scheme := "https", Host := "v1.example.net", Path := "/blog/42",
             RawQuery := "" },
    Header := [("X-Forwarded-Proto", ["https"]), ("X-Forwarded-Host", ["example.com"]),
               ("Accept", ["*/*"])] }

/-- An admin service whose store holds one proxy rule and one redirect
rule. -/
def sampleAdmin : adminService :=
  { Config := sampleConfig,
    db := { proxy_rules := { rows := [("shop.example.com", "v2")], failure := none },
            redirect_rules :=
              { rows := [("example.com/blog/42", "https://new.example.com/post/42")],
                failure := none } } }

/-- An environment as systemd hands it over. -/
def sampleEnv : String → String := fun name =>
  if name = "LISTEN_FDS" then "2"
  else if name = "API_KEY" then "secret"
  else if name = "V1_HOST" then "v1.example.net"
  else if name = "V2_HOST" then "v2.example.net"
  else if name = "IGNORE_TLS" then "true"
  else ""

/-! ## Lemmas on the library helpers -/

theorem HasSuffix_iff (s suffix : String) :
    HasSuffix s suffix = true ↔ suffix.data <:+ s.data := by
  unfold HasSuffix
  constructor
  · intro h
    simp only [Bool.and_eq_true, decide_eq_true_eq, beq_iff_eq] at h
    rw [← h.2]
    exact List.drop_suffix _ _
  · intro h
    obtain ⟨t, ht⟩ := h
    simp only [Bool.and_eq_true, decide_eq_true_eq, beq_iff_eq]
    rw [← ht]
    simp

theorem HasPrefix_iff (s pre : String) :
    HasPrefix s pre = true ↔ pre.data <+: s.data := by
  unfold HasPrefix
  constructor
  · intro h
    simp only [Bool.and_eq_true, decide_eq_true_eq, beq_iff_eq] at h
    rw [← h.2]
    exact List.take_prefix _ _
  · intro h
    obtain ⟨t, ht⟩ := h
    simp only [Bool.and_eq_true, decide_eq_true_eq, beq_iff_eq]
    rw [← ht]
    simp

theorem prep_fields (r : Request) (toDomain : String) :
    (prepRequestForProxy r toDomain).URL.Scheme = "https"
    ∧ (prepRequestForProxy r toDomain).URL.Host = toDomain
    ∧ (prepRequestForProxy r toDomain).Header.Get "X-Forwarded-Host" = r.Host
    ∧ (prepRequestForProxy r toDomain).Header.Get "X-Forwarded-Proto" = "https" := by
  refine ⟨rfl, rfl, ?_, ?_⟩
  · simp [prepRequestForProxy, Header.Set, Header.Get, List.find?, List.filter]
  · simp [prepRequestForProxy, Header.Set, Header.Get, List.find?]

theorem find_filter_ne (h : Header) (k key : String) (hk : k ≠ key) :
    (h.filter (fun kv => kv.1 != k)).find? (fun kv => kv.1 == key)
      = h.find? (fun kv => kv.1 == key) := by
  induction h with
  | nil => rfl
  | cons a t ih =>
    by_cases ha : a.1 = k
    · have hc : ¬ a.1 = key := fun hh => hk (ha ▸ hh)
      rw [List.filter_cons_of_neg (by simp [ha]), List.find?_cons_of_neg _ (by simp [hc]), ih]
    · rw [List.filter_cons_of_pos (by simp [ha])]
      by_cases hkey : a.1 = key
      · rw [List.find?_cons_of_pos _ (by simp [hkey]), List.find?_cons_of_pos _ (by simp [hkey])]
      · rw [List.find?_cons_of_neg _ (by simp [hkey]), List.find?_cons_of_neg _ (by simp [hkey]),
          ih]

theorem prep_frame (r : Request) (toDomain : String) :
    (prepRequestForProxy r toDomain).Method = r.Method
    ∧ (prepRequestForProxy r toDomain).Host = r.Host
    ∧ (prepRequestForProxy r toDomain).URL.Path = r.URL.Path
    ∧ (prepRequestForProxy r toDomain).URL.RawQuery = r.URL.RawQuery
    ∧ ∀ key : String, key ≠ "X-Forwarded-Host" → key ≠ "X-Forwarded-Proto" →
        (prepRequestForProxy r toDomain).Header.Values key = r.Header.Values key := by
  refine ⟨rfl, rfl, rfl, rfl, ?_⟩
  intro key h1 h2
  have e : (prepRequestForProxy r toDomain).Header
      = ("X-Forwarded-Proto", ["https"]) ::
          (("X-Forwarded-Host", [r.Host]) ::
            r.Header.filter (fun kv => kv.1 != "X-Forwarded-Host")).filter
              (fun kv => kv.1 != "X-Forwarded-Proto") := rfl
  unfold Header.Values
  rw [e, List.find?_cons_of_neg _ (by simpa using Ne.symm h2),
    find_filter_ne _ _ _ (Ne.symm h2),
    List.find?_cons_of_neg _ (by simpa using Ne.symm h1),
    find_filter_ne _ _ _ (Ne.symm h1)]

/-! ## The dispatch of `Proxy.ServeHTTP` -/

/-- C1: a request whose Host ends with the special port suffix `:4443` is
handed to the reverse proxy with outbound URL host `V1Host + ":4443"`, for
every rule provider, and neither `GetProxyRule` nor `GetRedirectRule` is
called: the forward is the only effect. -/
theorem special_port_forwards_to_v1 (p : Proxy) (r : Request)
    (h : ":4443".data <:+ r.Host.data) :
    ∃ out : Request, p.ServeHTTP r = [Effect.reverseProxy out]
      ∧ out.URL.Host = p.Config.V1Host ++ ":4443"
      ∧ ∀ q : Request, Effect.getProxyRule q ∉ p.ServeHTTP r
          ∧ Effect.getRedirectRule q ∉ p.ServeHTTP r := by
  have hs : HasSuffix r.Host specialPort = true := (HasSuffix_iff _ _).2 h
  refine ⟨prepRequestForProxy r (p.Config.V1Host ++ specialPort), ?_, rfl, ?_⟩
  · simp [Proxy.ServeHTTP, hs]
  · intro q
    simp [Proxy.ServeHTTP, hs]

theorem special_port_forwards_to_v1_witness :
    ∃ out : Request,
      ({ Config := sampleConfig,
         RuleProvder := constProvider ("v2.example.net", none) ("", some "db down") } :
          Proxy).ServeHTTP (sampleRequest "example.com:4443") = [Effect.reverseProxy out]
      ∧ out.URL.Host = "v1.example.net" ++ ":4443"
      ∧ ∀ q : Request,
          Effect.getProxyRule q ∉
            ({ Config := sampleConfig,
               RuleProvder := constProvider ("v2.example.net", none) ("", some "db down") } :
                Proxy).ServeHTTP (sampleRequest "example.com:4443")
          ∧ Effect.getRedirectRule q ∉
            ({ Config := sampleConfig,
               RuleProvder := constProvider ("v2.example.net", none) ("", some "db down") } :
                Proxy).ServeHTTP (sampleRequest "example.com:4443") :=
  special_port_forwards_to_v1
    { Config := sampleConfig,
      RuleProvder := constProvider ("v2.example.net", none) ("", some "db down") }
    (sampleRequest "example.com:4443") ⟨"example.com".data, rfl⟩

/-- C2: for a request not on the special port for which `GetProxyRule`
returns a non-empty host `T` and no error, the effects are the lookup and
one forward through the reverse proxy, with outbound scheme `https`,
outbound host `T`, `X-Forwarded-Host` the original Host and
`X-Forwarded-Proto` `https`; `GetRedirectRule` is not called. -/
theorem proxy_rule_forwards (p : Proxy) (r : Request) (T : String)
    (hport : ¬ ":4443".data <:+ r.Host.data)
    (hrule : p.RuleProvder.GetProxyRule r = (T, none)) (hT : T ≠ "") :
    ∃ out : Request,
      p.ServeHTTP r = [Effect.getProxyRule r, Effect.reverseProxy out]
      ∧ out.URL.Scheme = "https"
      ∧ out.URL.Host = T
      ∧ out.Header.Get "X-Forwarded-Host" = r.Host
      ∧ out.Header.Get "X-Forwarded-Proto" = "https"
      ∧ ∀ q : Request, Effect.getRedirectRule q ∉ p.ServeHTTP r := by
  have hs : HasSuffix r.Host specialPort = false := by
    rw [Bool.eq_false_iff]
    exact fun hh => hport ((HasSuffix_iff _ _).1 hh)
  have htrace : p.ServeHTTP r
      = [Effect.getProxyRule r, Effect.reverseProxy (prepRequestForProxy r T)] := by
    simp [Proxy.ServeHTTP, hs, hrule, hT]
  obtain ⟨f1, f2, f3, f4⟩ := prep_fields r T
  refine ⟨prepRequestForProxy r T, htrace, f1, f2, f3, f4, ?_⟩
  intro q
  simp [htrace]

theorem proxy_rule_forwards_witness :
    ∃ out : Request,
      ({ Config := sampleConfig,
         RuleProvder := constProvider ("v2.example.net", none) ("", none) } :
          Proxy).ServeHTTP (sampleRequest "example.com")
        = [Effect.getProxyRule (sampleRequest "example.com"), Effect.reverseProxy out]
      ∧ out.URL.Scheme = "https"
      ∧ out.URL.Host = "v2.example.net"
      ∧ out.Header.Get "X-Forwarded-Host" = "example.com"
      ∧ out.Header.Get "X-Forwarded-Proto" = "https"
      ∧ ∀ q : Request, Effect.getRedirectRule q ∉
          ({ Config := sampleConfig,
             RuleProvder := constProvider ("v2.example.net", none) ("", none) } :
              Proxy).ServeHTTP (sampleRequest "example.com") :=
  proxy_rule_forwards
    { Config := sampleConfig, RuleProvder := constProvider ("v2.example.net", none) ("", none) }
    (sampleRequest "example.com") "v2.example.net"
    (by rw [← HasSuffix_iff]; decide) rfl (by decide)

theorem hexEscapeChars_ascii (cs : List Char) (h : ∀ c ∈ cs, c.toNat < 0x80) :
    hexEscapeChars cs = cs := by
  induction cs with
  | nil => rfl
  | cons c t ih =>
    have hc : c.toNat < 0x80 := h c (List.mem_cons_self _ _)
    simp only [hexEscapeChars, hc, if_true]
    rw [ih (fun x hx => h x (List.mem_cons_of_mem _ hx))]

theorem hexEscapeNonASCII_ascii (s : String) (h : ∀ c ∈ s.data, c.toNat < 0x80) :
    hexEscapeNonASCII s = s := by
  unfold hexEscapeNonASCII
  rw [hexEscapeChars_ascii _ h]

/-- C3, as stated, fails: with the redirect rule `/a/../b` (a value the admin
endpoint accepts) for `GET example.com/blog/42`, `Proxy.ServeHTTP` calls
`http.Redirect` with that URL, which `url.Parse` reads as a path without
scheme and host, and the `Location` sent is `/b`, not the URL of the rule.
With the rule `post/42` the `Location` is `/blog/post/42`. -/
theorem redirect_location_is_rewritten :
    ¬ ":4443".data <:+ (sampleRequest "example.com").Host.data
    ∧ (constProvider ("", none) ("/a/../b", none)).GetProxyRule (sampleRequest "example.com")
        = ("", none)
    ∧ (constProvider ("", none) ("/a/../b", none)).GetRedirectRule
          (sampleRequest "example.com")
        = ("/a/../b", none)
    ∧ ({ Config := sampleConfig, RuleProvder := constProvider ("", none) ("/a/../b", none) } :
          Proxy).ServeHTTP (sampleRequest "example.com")
        = [Effect.getProxyRule (sampleRequest "example.com"),
           Effect.getRedirectRule (sampleRequest "example.com"),
           Effect.redirect "/a/../b" 307]
    ∧ Redirect (some { Scheme := "", Host := "", Path := "/a/../b", RawQuery := "" })
          (sampleRequest "example.com") "/a/../b" 307
        = { Location := "/b", Status := 307 }
    ∧ (Redirect (some { Scheme := "", Host := "", Path := "/a/../b", RawQuery := "" })
          (sampleRequest "example.com") "/a/../b" 307).Location ≠ "/a/../b"
    ∧ Redirect (some { Scheme := "", Host := "", Path := "post/42", RawQuery := "" })
          (sampleRequest "example.com") "post/42" 307
        = { Location := "/blog/post/42", Status := 307 } := by
  refine ⟨?_, rfl, rfl, ?_, ?_, ?_, ?_⟩
  · rw [← HasSuffix_iff]; decide
  · decide
  · decide
  · decide
  · decide

/-- C3, amended: for a request not on the special port for which
`GetProxyRule` returns no rule and no error and `GetRedirectRule` returns a
non-empty URL `U` and no error, the effects are the two lookups and
`http.Redirect(w, r, U, 307)`, and the reverse proxy is not invoked.  The
response has status 307.  When `url.Parse(U)` fails or gives a scheme or a
host, the `Location` is `U` with every byte outside ASCII written as `%` and
two hexadecimal digits, hence `U` itself when `U` is ASCII.  When
`url.Parse(U)` gives neither scheme nor host, the `Location` is `U` made
absolute against the request path and cleaned, escaped the same way. -/
theorem redirect_rule_sends_307 (p : Proxy) (r : Request) (U : String)
    (parsed : Option URL)
    (hport : ¬ ":4443".data <:+ r.Host.data)
    (hproxy : p.RuleProvder.GetProxyRule r = ("", none))
    (hredirect : p.RuleProvder.GetRedirectRule r = (U, none)) (hU : U ≠ "") :
    p.ServeHTTP r
        = [Effect.getProxyRule r, Effect.getRedirectRule r, Effect.redirect U 307]
      ∧ (∀ q : Request, Effect.reverseProxy q ∉ p.ServeHTTP r)
      ∧ (Redirect parsed r U 307).Status = 307
      ∧ ((∀ u : URL, parsed = some u → u.Scheme ≠ "" ∨ u.Host ≠ "") →
          (Redirect parsed r U 307).Location = hexEscapeNonASCII U)
      ∧ ((∀ u : URL, parsed = some u → u.Scheme ≠ "" ∨ u.Host ≠ "") →
          (∀ c ∈ U.data, c.toNat < 0x80) →
          (Redirect parsed r U 307).Location = U)
      ∧ (∀ u : URL, parsed = some u → u.Scheme = "" → u.Host = "" →
          (Redirect parsed r U 307).Location
            = hexEscapeNonASCII (resolveRelative r.URL.Path U)) := by
  have hs : HasSuffix r.Host specialPort = false := by
    rw [Bool.eq_false_iff]
    exact fun hh => hport ((HasSuffix_iff _ _).1 hh)
  have htrace : p.ServeHTTP r
      = [Effect.getProxyRule r, Effect.getRedirectRule r, Effect.redirect U 307] := by
    simp [Proxy.ServeHTTP, hs, hproxy, hredirect, hU, StatusTemporaryRedirect]
  have habs : (∀ u : URL, parsed = some u → u.Scheme ≠ "" ∨ u.Host ≠ "") →
      (Redirect parsed r U 307).Location = hexEscapeNonASCII U := by
    intro h
    unfold Redirect
    cases hp : parsed with
    | none => rfl
    | some u =>
      have hne : ¬ (u.Scheme = "" ∧ u.Host = "") := by
        rintro ⟨h1, h2⟩
        rcases h u hp with h3 | h3
        · exact h3 h1
        · exact h3 h2
      simp only [hne, if_false]
  refine ⟨htrace, ?_, rfl, habs, ?_, ?_⟩
  · intro q
    simp [htrace]
  · intro h hascii
    rw [habs h, hexEscapeNonASCII_ascii U hascii]
  · intro u hp h1 h2
    unfold Redirect
    simp only [hp, h1, h2, and_self, if_true]

theorem redirect_rule_sends_307_witness :
    ({ Config := sampleConfig,
       RuleProvder := constProvider ("", none) ("https://new.example.com/post/42", none) } :
        Proxy).ServeHTTP (sampleRequest "example.com")
        = [Effect.getProxyRule (sampleRequest "example.com"),
           Effect.getRedirectRule (sampleRequest "example.com"),
           Effect.redirect "https://new.example.com/post/42" 307]
      ∧ (Redirect
            (some { Scheme := "https", Host := "new.example.com", Path := "/post/42",
                    RawQuery := "" })
            (sampleRequest "example.com") "https://new.example.com/post/42" 307).Location
          = "https://new.example.com/post/42"
      ∧ (Redirect
            (some { Scheme := "https", Host := "new.example.com", Path := "/post/42",
                    RawQuery := "" })
            (sampleRequest "example.com") "https://new.example.com/post/42" 307).Status
          = 307 := by
  have h := redirect_rule_sends_307
    { Config := sampleConfig,
      RuleProvder := constProvider ("", none) ("https://new.example.com/post/42", none) }
    (sampleRequest "example.com") "https://new.example.com/post/42"
    (some { Scheme := "https", Host := "new.example.com", Path := "/post/42",
            RawQuery := "" })
    (by rw [← HasSuffix_iff]; decide) rfl rfl (by decide)
  refine ⟨h.1, h.2.2.2.2.1 ?_ (by decide), h.2.2.1⟩
  intro u hu
  cases hu
  exact Or.inl (by decide)

/-- C4, as stated, fails: with no rule for `example.com`, the request handed
to the reverse proxy does not keep the scheme and the headers the client
sent; the scheme becomes `https` and two forwarding headers are added. -/
theorem default_forward_rewrites_request :
    ¬ ":4443".data <:+ (sampleRequest "example.com").Host.data
    ∧ (constProvider ("", none) ("", none)).GetProxyRule (sampleRequest "example.com")
        = ("", none)
    ∧ (constProvider ("", none) ("", none)).GetRedirectRule (sampleRequest "example.com")
        = ("", none)
    ∧ ({ Config := sampleConfig, RuleProvder := constProvider ("", none) ("", none) } :
          Proxy).ServeHTTP (sampleRequest "example.com")
        = [Effect.getProxyRule (sampleRequest "example.com"),
           Effect.getRedirectRule (sampleRequest "example.com"),
           Effect.reverseProxy forwardedSample]
    ∧ forwardedSample.URL.Scheme ≠ (sampleRequest "example.com").URL.Scheme
    ∧ forwardedSample.Header ≠ (sampleRequest "example.com").Header
    ∧ forwardedSample.Header.Values "X-Forwarded-Proto"
        ≠ (sampleRequest "example.com").Header.Values "X-Forwarded-Proto" := by
  refine ⟨?_, rfl, rfl, ?_, ?_, ?_, ?_⟩
  · rw [← HasSuffix_iff]; decide
  · decide
  · decide
  · decide
  · decide

/-- C4, amended: for a request not on the special port for which both
lookups return no rule and no error, the effects are the two lookups and one
forward through the reverse proxy; the forwarded request has outbound host
`V1Host`, outbound scheme `https`, `X-Forwarded-Host` the original Host and
`X-Forwarded-Proto` `https`, and its method, Host, path, query and every
other header are the ones received. -/
theorem default_forwards_to_v1 (p : Proxy) (r : Request)
    (hport : ¬ ":4443".data <:+ r.Host.data)
    (hproxy : p.RuleProvder.GetProxyRule r = ("", none))
    (hredirect : p.RuleProvder.GetRedirectRule r = ("", none)) :
    ∃ out : Request,
      p.ServeHTTP r
        = [Effect.getProxyRule r, Effect.getRedirectRule r, Effect.reverseProxy out]
      ∧ out.URL.Host = p.Config.V1Host
      ∧ out.URL.Scheme = "https"
      ∧ out.Header.Get "X-Forwarded-Host" = r.Host
      ∧ out.Header.Get "X-Forwarded-Proto" = "https"
      ∧ out.Method = r.Method
      ∧ out.Host = r.Host
      ∧ out.URL.Path = r.URL.Path
      ∧ out.URL.RawQuery = r.URL.RawQuery
      ∧ ∀ key : String, key ≠ "X-Forwarded-Host" → key ≠ "X-Forwarded-Proto" →
          out.Header.Values key = r.Header.Values key := by
  have hs : HasSuffix r.Host specialPort = false := by
    rw [Bool.eq_false_iff]
    exact fun hh => hport ((HasSuffix_iff _ _).1 hh)
  obtain ⟨f1, f2, f3, f4⟩ := prep_fields r p.Config.V1Host
  obtain ⟨g1, g2, g3, g4, g5⟩ := prep_frame r p.Config.V1Host
  refine ⟨prepRequestForProxy r p.Config.V1Host, ?_, f2, f1, f3, f4, g1, g2, g3, g4, g5⟩
  simp [Proxy.ServeHTTP, hs, hproxy, hredirect]

theorem default_forwards_to_v1_witness :
    ∃ out : Request,
      ({ Config := sampleConfig, RuleProvder := constProvider ("", none) ("", none) } :
          Proxy).ServeHTTP (sampleRequest "example.com")
        = [Effect.getProxyRule (sampleRequest "example.com"),
           Effect.getRedirectRule (sampleRequest "example.com"), Effect.reverseProxy out]
      ∧ out.URL.Host = "v1.example.net"
      ∧ out.URL.Scheme = "https"
      ∧ out.Header.Get "X-Forwarded-Host" = "example.com"
      ∧ out.Header.Get "X-Forwarded-Proto" = "https"
      ∧ out.Method = "GET"
      ∧ out.Host = "example.com"
      ∧ out.URL.Path = "/blog/42"
      ∧ out.URL.RawQuery = ""
      ∧ ∀ key : String, key ≠ "X-Forwarded-Host" → key ≠ "X-Forwarded-Proto" →
          out.Header.Values key = (sampleRequest "example.com").Header.Values key :=
  default_forwards_to_v1
    { Config := sampleConfig, RuleProvder := constProvider ("", none) ("", none) }
    (sampleRequest "example.com") (by rw [← HasSuffix_iff]; decide) rfl rfl

/-- C5: for a request not on the special port, if `GetProxyRule` returns an
error, or it returns no rule and `GetRedirectRule` returns an error, then the
response is status 500 with body `Proxy error` written right after the
failed lookup, whatever string came with the error; the reverse proxy is not
invoked and no redirect is issued. -/
theorem lookup_error_gives_500 (p : Proxy) (r : Request) (v : String) (e : Error)
    (hport : ¬ ":4443".data <:+ r.Host.data)
    (herr : p.RuleProvder.GetProxyRule r = (v, some e)
      ∨ (p.RuleProvder.GetProxyRule r = ("", none)
          ∧ p.RuleProvder.GetRedirectRule r = (v, some e))) :
    (p.ServeHTTP r
        = [Effect.getProxyRule r, Effect.writeHeader 500, Effect.write "Proxy error"]
      ∨ p.ServeHTTP r
        = [Effect.getProxyRule r, Effect.getRedirectRule r, Effect.writeHeader 500,
           Effect.write "Proxy error"])
    ∧ (∀ q : Request, Effect.reverseProxy q ∉ p.ServeHTTP r)
    ∧ (∀ (u : String) (code : Nat), Effect.redirect u code ∉ p.ServeHTTP r) := by
  have hs : HasSuffix r.Host specialPort = false := by
    rw [Bool.eq_false_iff]
    exact fun hh => hport ((HasSuffix_iff _ _).1 hh)
  rcases herr with h1 | ⟨h1, h2⟩
  · have htrace : p.ServeHTTP r
        = [Effect.getProxyRule r, Effect.writeHeader 500, Effect.write "Proxy error"] := by
      simp [Proxy.ServeHTTP, hs, h1, StatusInternalServerError]
    refine ⟨Or.inl htrace, ?_, ?_⟩
    · intro q; simp [htrace]
    · intro u code; simp [htrace]
  · have htrace : p.ServeHTTP r
        = [Effect.getProxyRule r, Effect.getRedirectRule r, Effect.writeHeader 500,
           Effect.write "Proxy error"] := by
      simp [Proxy.ServeHTTP, hs, h1, h2, StatusInternalServerError]
    refine ⟨Or.inr htrace, ?_, ?_⟩
    · intro q; simp [htrace]
    · intro u code; simp [htrace]

theorem lookup_error_gives_500_witness :
    (({ Config := sampleConfig,
        RuleProvder := constProvider ("v2.example.net", some "database is locked") ("", none) } :
          Proxy).ServeHTTP (sampleRequest "example.com")
        = [Effect.getProxyRule (sampleRequest "example.com"), Effect.writeHeader 500,
           Effect.write "Proxy error"]
      ∨ ({ Config := sampleConfig,
           RuleProvder :=
             constProvider ("v2.example.net", some "database is locked") ("", none) } :
          Proxy).ServeHTTP (sampleRequest "example.com")
        = [Effect.getProxyRule (sampleRequest "example.com"),
           Effect.getRedirectRule (sampleRequest "example.com"), Effect.writeHeader 500,
           Effect.write "Proxy error"])
    ∧ (∀ q : Request, Effect.reverseProxy q ∉
        ({ Config := sampleConfig,
           RuleProvder :=
             constProvider ("v2.example.net", some "database is locked") ("", none) } :
          Proxy).ServeHTTP (sampleRequest "example.com"))
    ∧ (∀ (u : String) (code : Nat), Effect.redirect u code ∉
        ({ Config := sampleConfig,
           RuleProvder :=
             constProvider ("v2.example.net", some "database is locked") ("", none) } :
          Proxy).ServeHTTP (sampleRequest "example.com")) :=
  lookup_error_gives_500
    { Config := sampleConfig,
      RuleProvder := constProvider ("v2.example.net", some "database is locked") ("", none) }
    (sampleRequest "example.com") "v2.example.net" "database is locked"
    (by rw [← HasSuffix_iff]; decide) (Or.inl rfl)

/-! ## The dispatch of the root handler -/

/-- C10: the root handler dispatches on the first matching path prefix, in
the order `/goproxy/proxy-rules` (admin proxy rules), `/goproxy/redirect-rules`
(admin redirect rules), `/goproxy` (stats), else `Proxy.ServeHTTP`.  Hence a
request whose path starts with `/goproxy` causes no effect of the proxy (no
rule lookup, no forward, no redirect, no response of the proxy), whatever its
Host and whatever the rules, and a request whose path does not start with
`/goproxy` is served by `Proxy.ServeHTTP`. -/
theorem root_handler_dispatch (p : Proxy) (r : Request) :
    ("/goproxy/proxy-rules".data <+: r.URL.Path.data →
        rootHandler p r = [Effect.adminProxyRules r])
    ∧ (¬ "/goproxy/proxy-rules".data <+: r.URL.Path.data →
        "/goproxy/redirect-rules".data <+: r.URL.Path.data →
        rootHandler p r = [Effect.adminRedirectRules r])
    ∧ (¬ "/goproxy/proxy-rules".data <+: r.URL.Path.data →
        ¬ "/goproxy/redirect-rules".data <+: r.URL.Path.data →
        "/goproxy".data <+: r.URL.Path.data →
        rootHandler p r = [Effect.statsServe r])
    ∧ ("/goproxy".data <+: r.URL.Path.data →
        ∀ e ∈ rootHandler p r, e.isProxyWork = false)
    ∧ (¬ "/goproxy".data <+: r.URL.Path.data → rootHandler p r = p.ServeHTTP r) := by
  have tr : ∀ {a : String}, a.data <+: r.URL.Path.data → HasPrefix r.URL.Path a = true :=
    fun h => (HasPrefix_iff _ _).2 h
  have fl : ∀ {a : String}, ¬ a.data <+: r.URL.Path.data → HasPrefix r.URL.Path a = false :=
    fun h => by
      rw [Bool.eq_false_iff]
      exact fun hh => h ((HasPrefix_iff _ _).1 hh)
  have sub1 : "/goproxy/proxy-rules".data <+: r.URL.Path.data →
      "/goproxy".data <+: r.URL.Path.data :=
    fun h => List.IsPrefix.trans ⟨"/proxy-rules".data, rfl⟩ h
  have sub2 : "/goproxy/redirect-rules".data <+: r.URL.Path.data →
      "/goproxy".data <+: r.URL.Path.data :=
    fun h => List.IsPrefix.trans ⟨"/redirect-rules".data, rfl⟩ h
  refine ⟨?_, ?_, ?_, ?_, ?_⟩
  · intro h1
    simp [rootHandler, tr h1]
  · intro h1 h2
    simp [rootHandler, fl h1, tr h2]
  · intro h1 h2 h3
    simp [rootHandler, fl h1, fl h2, tr h3]
  · intro h3 e he
    by_cases h1 : "/goproxy/proxy-rules".data <+: r.URL.Path.data
    · simp [rootHandler, tr h1] at he
      subst he
      rfl
    · by_cases h2 : "/goproxy/redirect-rules".data <+: r.URL.Path.data
      · simp [rootHandler, fl h1, tr h2] at he
        subst he
        rfl
      · simp [rootHandler, fl h1, fl h2, tr h3] at he
        subst he
        rfl
  · intro h3
    have h1 : ¬ "/goproxy/proxy-rules".data <+: r.URL.Path.data := fun h => h3 (sub1 h)
    have h2 : ¬ "/goproxy/redirect-rules".data <+: r.URL.Path.data := fun h => h3 (sub2 h)
    simp [rootHandler, fl h1, fl h2, fl h3]

theorem root_handler_dispatch_witness :
    "/goproxy".data <+: statsRequest.URL.Path.data
    ∧ ":4443".data <:+ statsRequest.Host.data
    ∧ (∀ e ∈ rootHandler
          { Config := sampleConfig,
            RuleProvder := constProvider ("v2.example.net", none) ("", none) } statsRequest,
        e.isProxyWork = false)
    ∧ rootHandler
          { Config := sampleConfig,
            RuleProvder := constProvider ("v2.example.net", none) ("", none) }
          (sampleRequest "example.com")
        = ({ Config := sampleConfig,
             RuleProvder := constProvider ("v2.example.net", none) ("", none) } :
            Proxy).ServeHTTP (sampleRequest "example.com") :=
  ⟨⟨"/status".data, rfl⟩, ⟨"example.com".data, rfl⟩,
    (root_handler_dispatch
      { Config := sampleConfig,
        RuleProvder := constProvider ("v2.example.net", none) ("", none) }
      statsRequest).2.2.2.1 ⟨"/status".data, rfl⟩,
    (root_handler_dispatch
      { Config := sampleConfig,
        RuleProvder := constProvider ("v2.example.net", none) ("", none) }
      (sampleRequest "example.com")).2.2.2.2 (by rw [← HasPrefix_iff]; decide)⟩

/-! ## `hostname` -/

theorem Index_singleton (c : Char) (s : List Char) :
    Index s [c] = if c ∈ s then some (s.takeWhile (· != c)).length else none := by
  induction s with
  | nil => simp [Index]
  | cons x t ih =>
    by_cases hx : x = c
    · subst hx
      simp [Index, List.isPrefixOf, List.takeWhile]
    · have hx2 : ¬ c = x := fun h => hx h.symm
      have hb : (x != c) = true := by simp [hx]
      simp only [Index, List.isPrefixOf, ih, List.mem_cons, hx2, false_or, List.takeWhile, hb]
      by_cases hm : c ∈ t
      · simp [hm, hx2]
      · simp [hm, hx2]

theorem take_length_takeWhile (f : Char → Bool) (s : List Char) :
    s.take (s.takeWhile f).length = s.takeWhile f := by
  induction s with
  | nil => rfl
  | cons x t ih =>
    by_cases hx : f x = true
    · simp [List.takeWhile_cons, hx, ih]
    · simp [List.takeWhile_cons, hx]

theorem takeWhile_ne_of_not_mem (c : Char) (s : List Char) (hm : c ∉ s) :
    s.takeWhile (· != c) = s := by
  rw [List.takeWhile_eq_self_iff]
  intro x hx
  have hne : x ≠ c := fun h => hm (h ▸ hx)
  simpa using hne

theorem genSplitLoop_head (c : Char) (k : Nat) (s : List Char) :
    (genSplitLoop [c] (k + 1) s)[0]? = some (s.takeWhile (· != c)) := by
  unfold genSplitLoop
  rw [Index_singleton]
  by_cases hm : c ∈ s
  · simp [hm, take_length_takeWhile]
  · simp [hm, takeWhile_ne_of_not_mem c s hm]

theorem utf8ByteSize_go_eq_zero (cs : List Char) (h : String.utf8ByteSize.go cs = 0) :
    cs = [] := by
  cases cs with
  | nil => rfl
  | cons c t =>
    exfalso
    have hpos := Char.utf8Size_pos c
    simp only [String.utf8ByteSize.go] at h
    omega

theorem SplitN_colon_head (h : String) :
    (SplitN h ":" 2)[0]? = some (String.mk (h.data.takeWhile (· != ':'))) := by
  unfold SplitN
  have hsep : ¬ (":" : String) = "" := by decide
  simp only [show ¬ (2 : Int) = 0 by decide, hsep, if_false, show ¬ (2 : Int) < 0 by decide,
    show (":" : String).data = [':'] from rfl]
  by_cases hz : h.utf8ByteSize = 0
  · have hd : h.data = [] := by
      cases h with
      | mk cs => exact utf8ByteSize_go_eq_zero cs hz
    simp [hz, hd, genSplitLoop]
  · have h2 : ¬ (2 : Int).toNat > h.utf8ByteSize + 1 := by
      have : (2 : Int).toNat = 2 := rfl
      omega
    simp only [h2, if_false, show (2 : Int).toNat - 1 = 0 + 1 from rfl]
    rw [List.getElem?_map, genSplitLoop_head]
    rfl

theorem prefix_le_takeWhile (c : Char) (s q : List Char) (hq : q <+: s) (hc : c ∉ q) :
    q <+: s.takeWhile (· != c) := by
  induction s generalizing q with
  | nil =>
    have : q = [] := List.prefix_nil.1 hq
    subst this
    exact List.nil_prefix
  | cons x t ih =>
    cases q with
    | nil => exact List.nil_prefix
    | cons y q1 =>
      obtain ⟨hxy, ht⟩ := List.cons_prefix_cons.1 hq
      subst hxy
      have hy : ¬ y = c := fun h => hc (by simp [h])
      have e : (y :: t).takeWhile (· != c) = y :: t.takeWhile (· != c) := by
        simp [List.takeWhile_cons, hy]
      rw [e]
      exact List.cons_prefix_cons.2 ⟨rfl, ih q1 ht (fun h => hc (List.mem_cons_of_mem _ h))⟩

theorem takeWhile_append_sep (c : Char) (d rest : List Char) (hd : c ∉ d) :
    (d ++ c :: rest).takeWhile (· != c) = d := by
  induction d with
  | nil => simp [List.takeWhile]
  | cons x t ih =>
    have hx : ¬ x = c := fun h => hd (by simp [h])
    have e : (x :: (t ++ c :: rest)).takeWhile (· != c)
        = x :: (t ++ c :: rest).takeWhile (· != c) := by
      simp [List.takeWhile_cons, hx]
    rw [List.cons_append, e, ih (fun h => hd (List.mem_cons_of_mem _ h))]

theorem hostname_eq (r : Request) :
    hostname r = some (String.mk (r.Host.data.takeWhile (· != ':'))) :=
  SplitN_colon_head r.Host

/-- C9: for every Host string, `hostname` does not fail and returns the
longest prefix of the Host that contains no `:` (a colon-free prefix of the
Host of which every colon-free prefix of the Host is a prefix): the Host
itself when it has no colon, and `d` when the Host is `d + ":" + p` with `d`
colon-free.  It is the one key `GetProxyRule` looks up. -/
theorem hostname_strips_port (r : Request) :
    ∃ host : String, hostname r = some host
      ∧ host.data <+: r.Host.data
      ∧ ':' ∉ host.data
      ∧ (∀ q : List Char, q <+: r.Host.data → ':' ∉ q → q <+: host.data)
      ∧ (':' ∉ r.Host.data → host = r.Host)
      ∧ (∀ d port : String, ':' ∉ d.data → r.Host = d ++ ":" ++ port → host = d)
      ∧ ∀ admin : adminService, ∃ res : String × Option Error,
          admin.GetProxyRule r = some (res, [Query.proxyRule host]) := by
  refine ⟨String.mk (r.Host.data.takeWhile (· != ':')), hostname_eq r, ?_, ?_, ?_, ?_, ?_, ?_⟩
  · exact List.takeWhile_prefix _
  · intro hmem
    have := List.mem_takeWhile_imp hmem
    simp at this
  · intro q hq hc
    exact prefix_le_takeWhile ':' _ q hq hc
  · intro hc
    rw [takeWhile_ne_of_not_mem ':' _ hc]
  · intro d port hd hr
    have : r.Host.data = d.data ++ ':' :: port.data := by
      rw [hr]
      simp [String.data_append]
    rw [this, takeWhile_append_sep ':' _ _ hd]
  · intro admin
    unfold adminService.GetProxyRule
    rw [hostname_eq]
    simp only
    cases admin.db.proxy_rules.QueryRow (String.mk (r.Host.data.takeWhile (· != ':'))) with
    | errNoRows => exact ⟨_, rfl⟩
    | failed e => exact ⟨_, rfl⟩
    | value version =>
      simp only
      split
      · exact ⟨_, rfl⟩
      · split
        · exact ⟨_, rfl⟩
        · exact ⟨_, rfl⟩

theorem hostname_strips_port_witness :
    hostname (sampleRequest "example.com:8080") = some "example.com" := by
  obtain ⟨host, h1, _, _, _, _, h6, _⟩ := hostname_strips_port (sampleRequest "example.com:8080")
  rw [h1, h6 "example.com" "8080" (by decide) rfl]

/-! ## The regular expression of redirect prefixes -/

theorem matchHere_eol (b : Bool) (s : List Char) :
    (matchHere [Re.eol] b s).isSome = true ↔ s = [] := by
  cases s with
  | nil => simp [matchHere]
  | cons x t => simp [matchHere]

theorem matchHere_lit (c : Char) (rest : List Re) (b : Bool) (s : List Char) :
    (matchHere (Re.lit c :: rest) b s).isSome = true
      ↔ ∃ t, s = c :: t ∧ (matchHere rest false t).isSome = true := by
  cases s with
  | nil => simp [matchHere]
  | cons x t =>
    by_cases hx : x = c
    · subst hx
      simp [matchHere]
    · have hx2 : ¬ c = x := fun h => hx h.symm
      simp [matchHere, hx, hx2]

theorem matchPlus_isSome (cls : Char → Bool) (next : List Char → Option (List Char))
    (s : List Char) :
    (matchPlus cls next s).isSome = true
      ↔ ∃ a t, s = a ++ t ∧ a ≠ [] ∧ (∀ x ∈ a, cls x = true) ∧ (next t).isSome = true := by
  induction s with
  | nil => simp [matchPlus]
  | cons x s1 ih =>
    have hstep : (matchPlus cls next (x :: s1)).isSome = true
        ↔ cls x = true ∧ ((matchPlus cls next s1).isSome = true
            ∨ (next s1).isSome = true) := by
      rw [matchPlus]
      by_cases hx : cls x = true
      · cases h1 : matchPlus cls next s1 with
        | none => simp [hx]
        | some m => simp [hx]
      · simp [hx]
    rw [hstep, ih]
    constructor
    · rintro ⟨hx, h | h⟩
      · obtain ⟨a, t, rfl, _, hall, hrest⟩ := h
        refine ⟨x :: a, t, rfl, by simp, ?_, hrest⟩
        intro y hy
        rcases List.mem_cons.1 hy with rfl | hy
        · exact hx
        · exact hall y hy
      · exact ⟨[x], s1, rfl, by simp, by simpa using hx, h⟩
    · rintro ⟨a, t, hs, hne, hall, hrest⟩
      cases a with
      | nil => exact absurd rfl hne
      | cons y a1 =>
        simp only [List.cons_append, List.cons.injEq] at hs
        obtain ⟨rfl, rfl⟩ := hs
        refine ⟨hall x (by simp), ?_⟩
        cases a1 with
        | nil => exact Or.inr (by simpa using hrest)
        | cons z a2 =>
          exact Or.inl ⟨z :: a2, t, rfl, by simp,
            fun w hw => hall w (List.mem_cons_of_mem _ hw), hrest⟩

theorem matchHere_plus (cls : Char → Bool) (rest : List Re) (b : Bool) (s : List Char) :
    (matchHere (Re.plus cls :: rest) b s).isSome = true
      ↔ ∃ a t, s = a ++ t ∧ a ≠ [] ∧ (∀ x ∈ a, cls x = true)
          ∧ (matchHere rest false t).isSome = true := by
  rw [matchHere, matchPlus_isSome]

/-- A pattern consumes the whole text when each of its matches is the text. -/
theorem consumes_eol (b : Bool) (s m : List Char) (h : matchHere [Re.eol] b s = some m) :
    m = s := by
  cases s with
  | nil => simpa [matchHere] using h.symm
  | cons x t => simp [matchHere] at h

theorem consumes_lit (c : Char) (rest : List Re)
    (hrest : ∀ b s m, matchHere rest b s = some m → m = s)
    (b : Bool) (s m : List Char) (h : matchHere (Re.lit c :: rest) b s = some m) : m = s := by
  cases s with
  | nil => simp [matchHere] at h
  | cons x t =>
    rw [matchHere] at h
    by_cases hx : x = c
    · simp only [hx, if_true, Option.map_eq_some'] at h
      obtain ⟨m1, hm1, rfl⟩ := h
      rw [hrest false t m1 hm1, hx]
    · simp [hx] at h

theorem consumes_matchPlus (cls : Char → Bool) (next : List Char → Option (List Char))
    (hnext : ∀ s m, next s = some m → m = s)
    (s m : List Char) (h : matchPlus cls next s = some m) : m = s := by
  induction s generalizing m with
  | nil => simp [matchPlus] at h
  | cons x t ih =>
    rw [matchPlus] at h
    by_cases hx : cls x = true
    · simp only [hx, if_true] at h
      cases h1 : matchPlus cls next t with
      | some m1 =>
        rw [h1] at h
        simp only [Option.some.injEq] at h
        rw [← h, ih m1 h1]
      | none =>
        rw [h1] at h
        simp only [Option.map_eq_some'] at h
        obtain ⟨m1, hm1, rfl⟩ := h
        rw [hnext t m1 hm1]
    · simp [hx] at h

theorem consumes_plus (cls : Char → Bool) (rest : List Re)
    (hrest : ∀ b s m, matchHere rest b s = some m → m = s)
    (b : Bool) (s m : List Char) (h : matchHere (Re.plus cls :: rest) b s = some m) :
    m = s := by
  rw [matchHere] at h
  exact consumes_matchPlus cls _ (hrest false) s m h

theorem findAt_bol_false (rest : List Re) (s : List Char) :
    findAt (Re.bol :: rest) false s = none := by
  induction s with
  | nil => simp [findAt, matchHere]
  | cons x t ih => simp [findAt, matchHere, ih]

theorem findAt_bol_true (rest : List Re) (s : List Char) :
    findAt (Re.bol :: rest) true s = matchHere rest true s := by
  cases s with
  | nil => simp [findAt, matchHere]
  | cons x t =>
    rw [findAt, findAt_bol_false]
    simp only [matchHere, if_true]
    cases matchHere rest true (x :: t) <;> rfl

theorem prefixReg_consumes (s m : List Char) (h : findAt prefixReg true s = some m) : m = s := by
  rw [prefixReg, findAt_bol_true] at h
  exact consumes_plus _ _ (consumes_lit _ _ (consumes_plus _ _ (consumes_lit _ _
    (consumes_plus _ _ (fun b s m => consumes_eol b s m))))) true s m h

theorem prefixReg_isSome_iff (s : String) :
    (findAt prefixReg true s.data).isSome = true ↔ IsRedirectShape s := by
  rw [prefixReg, findAt_bol_true, matchHere_plus]
  unfold IsRedirectShape
  constructor
  · rintro ⟨d, t1, hs, hd, hdall, h1⟩
    obtain ⟨t2, rfl, h2⟩ := (matchHere_lit _ _ _ _).1 h1
    obtain ⟨c, t3, rfl, hc, hcall, h3⟩ := (matchHere_plus _ _ _ _).1 h2
    obtain ⟨t4, rfl, h4⟩ := (matchHere_lit _ _ _ _).1 h3
    obtain ⟨n, t5, rfl, hn, hnall, h5⟩ := (matchHere_plus _ _ _ _).1 h4
    have h6 : t5 = [] := (matchHere_eol _ _).1 h5
    subst h6
    exact ⟨d, c, n, by simpa using hs, hd, hdall, hc, hcall, hn, hnall⟩
  · rintro ⟨d, c, n, hs, hd, hdall, hc, hcall, hn, hnall⟩
    refine ⟨d, '/' :: (c ++ '/' :: n), hs, hd, hdall, ?_⟩
    refine (matchHere_lit _ _ _ _).2 ⟨_, rfl, ?_⟩
    refine (matchHere_plus _ _ _ _).2 ⟨c, '/' :: n, rfl, hc, hcall, ?_⟩
    refine (matchHere_lit _ _ _ _).2 ⟨_, rfl, ?_⟩
    exact (matchHere_plus _ _ _ _).2 ⟨n, [], by simp, hn, hnall, (matchHere_eol _ _).2 rfl⟩

theorem FindString_prefixReg_of_shape (s : String) (h : IsRedirectShape s) :
    FindString prefixReg s = s := by
  have hsome := (prefixReg_isSome_iff s).2 h
  unfold FindString
  cases hf : findAt prefixReg true s.data with
  | none => simp [hf] at hsome
  | some m => simp [prefixReg_consumes _ _ hf]

theorem FindString_prefixReg_of_not_shape (s : String) (h : ¬ IsRedirectShape s) :
    FindString prefixReg s = "" := by
  unfold FindString
  cases hf : findAt prefixReg true s.data with
  | none => rfl
  | some m => exact absurd ((prefixReg_isSome_iff s).1 (by simp [hf])) h

theorem shape_ne_empty (s : String) (h : IsRedirectShape s) : s ≠ "" := by
  obtain ⟨d, c, n, hs, _⟩ := h
  intro he
  rw [he] at hs
  simp at hs

theorem shape_count_slash (s : String) (h : IsRedirectShape s) : s.data.count '/' = 2 := by
  obtain ⟨d, c, n, hs, _, hdall, _, hcall, _, hnall⟩ := h
  have hd : d.count '/' = 0 := List.count_eq_zero.2 (fun hm => by
    have := hdall _ hm
    revert this
    decide)
  have hc : c.count '/' = 0 := List.count_eq_zero.2 (fun hm => by
    have := hcall _ hm
    revert this
    decide)
  have hn : n.count '/' = 0 := List.count_eq_zero.2 (fun hm => by
    have := hnall _ hm
    revert this
    decide)
  rw [hs]
  simp [List.count_append, List.count_cons, hd, hc, hn]

theorem QueryRow_value_mem (t : Table) (key v : String)
    (h : t.QueryRow key = RowResult.value v) : (key, v) ∈ t.rows := by
  unfold Table.QueryRow at h
  cases hf : t.failure with
  | some e => simp [hf] at h
  | none =>
    simp only [hf] at h
    cases hr : t.rows.find? (fun row => row.1 == key) with
    | none => simp [hr] at h
    | some row =>
      obtain ⟨k, w⟩ := row
      simp only [hr, RowResult.value.injEq] at h
      have hk : k = key := by simpa using List.find?_some hr
      have hm := List.mem_of_find?_eq_some hr
      rw [hk, h] at hm
      exact hm

theorem GetRedirectRule_of_not_shape (admin : adminService) (r : Request) (host : String)
    (hh : hostname r = some host) (hs : ¬ IsRedirectShape (host ++ r.URL.Path)) :
    admin.GetRedirectRule r = some (("", none), []) := by
  unfold adminService.GetRedirectRule
  simp [hh, FindString_prefixReg_of_not_shape _ hs]

theorem GetRedirectRule_of_shape (admin : adminService) (r : Request) (host : String)
    (hh : hostname r = some host) (hs : IsRedirectShape (host ++ r.URL.Path)) :
    admin.GetRedirectRule r
      = some (match admin.db.redirect_rules.QueryRow (host ++ r.URL.Path) with
              | .errNoRows => ("", none)
              | .failed e => ("", some e)
              | .value toUrl => (toUrl, none),
              [Query.redirectRule (host ++ r.URL.Path)]) := by
  unfold adminService.GetRedirectRule
  simp only [hh, FindString_prefixReg_of_shape _ hs, shape_ne_empty _ hs, if_false]
  cases admin.db.redirect_rules.QueryRow (host ++ r.URL.Path) <;> rfl

/-- C8: `GetRedirectRule` does not fail; when `hostname(r) + r.URL.Path` does
not have the shape `{domain}/{category}/{numeric-id}` as a whole it returns
no rule and no error without querying the store; when it has the shape, the
one query it sends is keyed by the entire string.  So every query is keyed
by the entire string, a URL it returns is stored under exactly that key, and
a request whose string continues past a stored prefix with `/` is answered
"no rule" without a query. -/
theorem redirect_lookup_keyed_by_whole_string (admin : adminService) (r : Request) :
    ∃ host : String, hostname r = some host
      ∧ (¬ IsRedirectShape (host ++ r.URL.Path) →
          admin.GetRedirectRule r = some (("", none), []))
      ∧ (IsRedirectShape (host ++ r.URL.Path) →
          ∃ res : String × Option Error,
            admin.GetRedirectRule r = some (res, [Query.redirectRule (host ++ r.URL.Path)]))
      ∧ (∀ (res : String × Option Error) (qs : List Query),
          admin.GetRedirectRule r = some (res, qs) →
          ∀ q ∈ qs, q = Query.redirectRule (host ++ r.URL.Path))
      ∧ (∀ (U : String) (err : Option Error) (qs : List Query),
          admin.GetRedirectRule r = some ((U, err), qs) → U ≠ "" →
          (host ++ r.URL.Path, U) ∈ admin.db.redirect_rules.rows)
      ∧ (∀ P extra : String, IsRedirectShape P → host ++ r.URL.Path = P ++ "/" ++ extra →
          admin.GetRedirectRule r = some (("", none), [])) := by
  refine ⟨_, hostname_eq r, ?_, ?_, ?_, ?_, ?_⟩
  · exact GetRedirectRule_of_not_shape admin r _ (hostname_eq r)
  · intro hs
    exact ⟨_, GetRedirectRule_of_shape admin r _ (hostname_eq r) hs⟩
  · intro res qs hg q hq
    by_cases hs : IsRedirectShape (String.mk (r.Host.data.takeWhile (· != ':')) ++ r.URL.Path)
    · rw [GetRedirectRule_of_shape admin r _ (hostname_eq r) hs] at hg
      simp only [Option.some.injEq, Prod.mk.injEq] at hg
      rw [← hg.2] at hq
      simpa using hq
    · rw [GetRedirectRule_of_not_shape admin r _ (hostname_eq r) hs] at hg
      simp only [Option.some.injEq, Prod.mk.injEq] at hg
      rw [← hg.2] at hq
      simp at hq
  · intro U err qs hg hU
    by_cases hs : IsRedirectShape (String.mk (r.Host.data.takeWhile (· != ':')) ++ r.URL.Path)
    · rw [GetRedirectRule_of_shape admin r _ (hostname_eq r) hs] at hg
      simp only [Option.some.injEq, Prod.mk.injEq] at hg
      apply QueryRow_value_mem
      cases hq : admin.db.redirect_rules.QueryRow
          (String.mk (r.Host.data.takeWhile (· != ':')) ++ r.URL.Path) with
      | errNoRows =>
        rw [hq] at hg
        simp only [Prod.mk.injEq] at hg
        exact absurd hg.1.1.symm hU
      | failed e =>
        rw [hq] at hg
        simp only [Prod.mk.injEq] at hg
        exact absurd hg.1.1.symm hU
      | value w =>
        rw [hq] at hg
        simp only [Prod.mk.injEq] at hg
        rw [← hg.1.1]
    · rw [GetRedirectRule_of_not_shape admin r _ (hostname_eq r) hs] at hg
      simp only [Option.some.injEq, Prod.mk.injEq] at hg
      exact absurd hg.1.1.symm hU
  · intro P extra hP he
    apply GetRedirectRule_of_not_shape admin r _ (hostname_eq r)
    intro hs
    have h2 := shape_count_slash _ hs
    have h3 := shape_count_slash _ hP
    rw [he] at h2
    simp [String.data_append, List.count_append, h3] at h2

theorem redirect_lookup_keyed_by_whole_string_witness :
    sampleAdmin.GetRedirectRule (sampleRequest "example.com:8080")
        = some (("https://new.example.com/post/42", none),
                [Query.redirectRule "example.com/blog/42"])
    ∧ sampleAdmin.GetRedirectRule
        { Method := "GET", Host := "example.com:8080",
          URL := { Scheme := "", Host := "", Path := "/blog/42/", RawQuery := "" },
          Header := [] }
        = some (("", none), []) := by
  refine ⟨by decide, ?_⟩
  obtain ⟨host, hh, _, _, _, _, h5⟩ := redirect_lookup_keyed_by_whole_string sampleAdmin
    { Method := "GET", Host := "example.com:8080",
      URL := { Scheme := "", Host := "", Path := "/blog/42/", RawQuery := "" },
      Header := [] }
  have hhost : host = "example.com" := by
    have h0 : hostname
        { Method := "GET", Host := "example.com:8080",
          URL := { Scheme := "", Host := "", Path := "/blog/42/", RawQuery := "" },
          Header := [] } = some "example.com" := by decide
    rw [h0] at hh
    exact (Option.some.inj hh).symm
  subst hhost
  exact h5 "example.com/blog/42" ""
    ((prefixReg_isSome_iff _).1 (by decide)) (by decide)

/-! ## `NewConfig` -/

/-- C7: `NewConfig` returns an error exactly when `LISTEN_FDS` does not parse
as the integer 2, or `API_KEY`, `V1_HOST` or `V2_HOST` is empty, or
`IGNORE_TLS` is none of `""`, `"false"`, `"true"`; a descriptor count other
than two is rejected also when `DEV` is `"true"`.  A returned config has
`HTTPPort` 8080, `HTTPSPort` 4433, `IgnoreTLSErrors` true exactly when
`IGNORE_TLS` is `"true"`, and `IsDev` true exactly when `DEV` is `"true"`. -/
theorem NewConfig_error_iff (Getenv : String → String) :
    ((∃ e : Error, NewConfig Getenv = Except.error e)
      ↔ (Atoi (Getenv "LISTEN_FDS") ≠ some 2
          ∨ Getenv "API_KEY" = "" ∨ Getenv "V1_HOST" = "" ∨ Getenv "V2_HOST" = ""
          ∨ (Getenv "IGNORE_TLS" ≠ "" ∧ Getenv "IGNORE_TLS" ≠ "false"
              ∧ Getenv "IGNORE_TLS" ≠ "true")))
    ∧ (Getenv "DEV" = "true" → Atoi (Getenv "LISTEN_FDS") ≠ some 2 →
        ∃ e : Error, NewConfig Getenv = Except.error e)
    ∧ (∀ c : Config, NewConfig Getenv = Except.ok c →
        c.HTTPPort = 8080 ∧ c.HTTPSPort = 4433
        ∧ (c.IgnoreTLSErrors = true ↔ Getenv "IGNORE_TLS" = "true")
        ∧ (c.IsDev = true ↔ Getenv "DEV" = "true")
        ∧ c.V1Host = Getenv "V1_HOST" ∧ c.V2Host = Getenv "V2_HOST"
        ∧ c.APIKey = Getenv "API_KEY") := by
  have key : (∃ e : Error, NewConfig Getenv = Except.error e)
      ↔ (Atoi (Getenv "LISTEN_FDS") ≠ some 2
          ∨ Getenv "API_KEY" = "" ∨ Getenv "V1_HOST" = "" ∨ Getenv "V2_HOST" = ""
          ∨ (Getenv "IGNORE_TLS" ≠ "" ∧ Getenv "IGNORE_TLS" ≠ "false"
              ∧ Getenv "IGNORE_TLS" ≠ "true")) := by
    unfold NewConfig
    cases hfd : Atoi (Getenv "LISTEN_FDS") with
    | none => simp
    | some nfds =>
      by_cases h2 : nfds = 2
      · subst h2
        by_cases ha : Getenv "API_KEY" = ""
        · simp [ha]
        · by_cases h1 : Getenv "V1_HOST" = ""
          · simp [ha, h1]
          · by_cases hv : Getenv "V2_HOST" = ""
            · simp [ha, h1, hv]
            · by_cases ht : Getenv "IGNORE_TLS" ≠ "" ∧ Getenv "IGNORE_TLS" ≠ "false"
                  ∧ Getenv "IGNORE_TLS" ≠ "true"
              · simp only [ne_eq, not_true_eq_false, if_false, ha, h1, hv]
                rw [if_pos ht]
                simp [ht]
              · simp only [ne_eq, not_true_eq_false, if_false, ha, h1, hv]
                rw [if_neg ht]
                simp [ht]
      · simp [h2]
  refine ⟨key, fun _ hfd => key.2 (Or.inl hfd), ?_⟩
  intro c hc
  unfold NewConfig at hc
  cases hfd : Atoi (Getenv "LISTEN_FDS") with
  | none => simp [hfd] at hc
  | some nfds =>
    simp only [hfd] at hc
    split at hc
    · simp at hc
    · split at hc
      · simp at hc
      · split at hc
        · simp at hc
        · split at hc
          · simp at hc
          · split at hc
            · simp at hc
            · simp only [Except.ok.injEq] at hc
              subst hc
              simp

theorem NewConfig_error_iff_witness :
    (∃ e : Error, NewConfig (fun name =>
        if name = "LISTEN_FDS" then "3" else if name = "DEV" then "true" else "x")
          = Except.error e)
    ∧ (NewConfig sampleEnv
        = Except.ok { HTTPPort := 8080, HTTPSPort := 4433, V1Host := "v1.example.net",
                      V2Host := "v2.example.net", APIKey := "secret",
                      IgnoreTLSErrors := true, IsDev := false }) :=
  ⟨(NewConfig_error_iff (fun name =>
      if name = "LISTEN_FDS" then "3" else if name = "DEV" then "true" else "x")).2.1
      (by decide) (by decide),
    rfl⟩

/-! ## The connection counter -/

theorem wrapInt64_of_range (x : Int) (h0 : 0 ≤ x) (h1 : x < 2 ^ 63) : wrapInt64 x = x := by
  unfold wrapInt64
  omega

theorem countP_set_of_getElem? (f : PipeState → Bool) (l : List PipeState) (i : Nat)
    (a b : PipeState) (h : l[i]? = some a) :
    ((l.set i b).countP f : Int)
      = (l.countP f : Int) - (if f a = true then 1 else 0) + (if f b = true then 1 else 0) := by
  induction l generalizing i with
  | nil => simp at h
  | cons x t ih =>
    cases i with
    | zero =>
      simp only [List.getElem?_cons_zero, Option.some.injEq] at h
      subst h
      simp only [List.set_cons_zero, List.countP_cons]
      push_cast
      omega
    | succ j =>
      simp only [List.getElem?_cons_succ] at h
      simp only [List.set_cons_succ, List.countP_cons]
      push_cast
      rw [ih j h]
      omega

theorem step_length (t : Tunnel) (ev : TunnelEvent) :
    (t.step ev).conns.length = t.conns.length + [ev].count TunnelEvent.accept := by
  cases ev with
  | accept => simp [Tunnel.step]
  | conn i e =>
    simp only [Tunnel.step]
    split
    · simp
    · split
      · simp
      · simp

theorem step_counts (t : Tunnel) (ev : TunnelEvent)
    (hinv : t.stats.openConnections = (t.openCalls : Int))
    (hlen : t.conns.length < 2 ^ 63) :
    (t.step ev).stats.openConnections = ((t.step ev).openCalls : Int) := by
  cases ev with
  | accept =>
    simp [Tunnel.step, Tunnel.openCalls, List.countP_append, PipeState.isOpen] at hinv ⊢
    exact hinv
  | conn i e =>
    simp only [Tunnel.step]
    cases hget : t.conns[i]? with
    | none => exact hinv
    | some st =>
      have hle : ∀ st1 : PipeState,
          ((t.conns.set i st1).countP PipeState.isOpen : Int) < 2 ^ 63 := by
        intro st1
        have h1 : (t.conns.set i st1).countP PipeState.isOpen ≤ (t.conns.set i st1).length :=
          List.countP_le_length _
        rw [List.length_set] at h1
        have h2 : ((t.conns.set i st1).countP PipeState.isOpen : Int) ≤ (t.conns.length : Int) :=
          by exact_mod_cast h1
        have h3 : (t.conns.length : Int) < 2 ^ 63 := by exact_mod_cast hlen
        omega
      have hset := fun st1 => countP_set_of_getElem? PipeState.isOpen t.conns i st st1 hget
      have hnn : ∀ st1 : PipeState,
          (0 : Int) ≤ ((t.conns.set i st1).countP PipeState.isOpen : Int) :=
        fun st1 => Int.ofNat_nonneg _
      unfold Tunnel.openCalls at hinv ⊢
      cases st <;> cases e <;> simp only [pipeConnStep]
      all_goals first
        | exact hinv
        | (simp only [List.foldl, Stats.IncConnections]
           have h4 := hset PipeState.dialing
           have h5 := hset PipeState.relaying
           have h6 := hset PipeState.returned
           have l4 := hle PipeState.dialing
           have l6 := hle PipeState.returned
           have n6 := hnn PipeState.returned
           simp only [PipeState.isOpen, Bool.false_eq_true, reduceIte] at h4 h5 h6
           simp only [hinv]
           first
             | (rw [wrapInt64_of_range _ (by omega) (by omega)]; omega)
             | omega)

theorem run_counts (evs : List TunnelEvent) (t : Tunnel)
    (hinv : t.stats.openConnections = (t.openCalls : Int))
    (hlen : t.conns.length + evs.count TunnelEvent.accept < 2 ^ 63) :
    (t.run evs).stats.openConnections = ((t.run evs).openCalls : Int) := by
  induction evs generalizing t with
  | nil => exact hinv
  | cons ev rest ih =>
    have h1 := step_length t ev
    have h2 : (ev :: rest).count TunnelEvent.accept
        = [ev].count TunnelEvent.accept + rest.count TunnelEvent.accept := by
      rw [← List.count_append]
      rfl
    rw [h2] at hlen
    exact ih (t.step ev) (step_counts t ev hinv (by omega)) (by omega)

theorem pipeConnRun_amounts (path : List PipeEvent) (amounts : List Int)
    (h : pipeConnRun PipeState.created path = some (PipeState.returned, amounts)) :
    amounts = [1, -1] := by
  have hret : ∀ (p : List PipeEvent) (am : List Int),
      pipeConnRun PipeState.returned p = some (PipeState.returned, am) → am = [] := by
    intro p am hp
    cases p with
    | nil => simpa [pipeConnRun] using hp.symm
    | cons e p1 => cases e <;> simp [pipeConnRun, pipeConnStep] at hp
  have hrel : ∀ (p : List PipeEvent) (am : List Int),
      pipeConnRun PipeState.relaying p = some (PipeState.returned, am) → am = [-1] := by
    intro p am hp
    cases p with
    | nil => simp [pipeConnRun] at hp
    | cons e p1 =>
      cases e with
      | relayDone err =>
        simp only [pipeConnRun, pipeConnStep] at hp
        cases hr : pipeConnRun PipeState.returned p1 with
        | none => simp [hr] at hp
        | some res =>
          obtain ⟨st2, more⟩ := res
          simp only [hr, Option.some.injEq, Prod.mk.injEq] at hp
          obtain ⟨rfl, rfl⟩ := hp
          rw [hret p1 more hr]
          rfl
      | start => simp [pipeConnRun, pipeConnStep] at hp
      | dialFailed => simp [pipeConnRun, pipeConnStep] at hp
      | dialOk => simp [pipeConnRun, pipeConnStep] at hp
  have hdial : ∀ (p : List PipeEvent) (am : List Int),
      pipeConnRun PipeState.dialing p = some (PipeState.returned, am) → am = [-1] := by
    intro p am hp
    cases p with
    | nil => simp [pipeConnRun] at hp
    | cons e p1 =>
      cases e with
      | dialFailed =>
        simp only [pipeConnRun, pipeConnStep] at hp
        cases hr : pipeConnRun PipeState.returned p1 with
        | none => simp [hr] at hp
        | some res =>
          obtain ⟨st2, more⟩ := res
          simp only [hr, Option.some.injEq, Prod.mk.injEq] at hp
          obtain ⟨rfl, rfl⟩ := hp
          rw [hret p1 more hr]
          rfl
      | dialOk =>
        simp only [pipeConnRun, pipeConnStep] at hp
        cases hr : pipeConnRun PipeState.relaying p1 with
        | none => simp [hr] at hp
        | some res =>
          obtain ⟨st2, more⟩ := res
          simp only [hr, Option.some.injEq, Prod.mk.injEq] at hp
          obtain ⟨rfl, rfl⟩ := hp
          rw [hrel p1 more hr]
          rfl
      | start => simp [pipeConnRun, pipeConnStep] at hp
      | relayDone err => simp [pipeConnRun, pipeConnStep] at hp
  cases path with
  | nil => simp [pipeConnRun] at h
  | cons e p1 =>
    cases e with
    | start =>
      simp only [pipeConnRun, pipeConnStep] at h
      cases hr : pipeConnRun PipeState.dialing p1 with
      | none => simp [hr] at h
      | some res =>
        obtain ⟨st2, more⟩ := res
        simp only [hr, Option.some.injEq, Prod.mk.injEq] at h
        obtain ⟨rfl, rfl⟩ := h
        rw [hdial p1 more hr]
        rfl
    | dialFailed => simp [pipeConnRun, pipeConnStep] at h
    | dialOk => simp [pipeConnRun, pipeConnStep] at h
    | relayDone err => simp [pipeConnRun, pipeConnStep] at h

/-- C6: on each of its exit paths (dial failure, relay end with or without
an error) one call of `pipeConn` passes exactly `+1` and then `-1` to
`IncConnections`.  Hence, from the counter at 0, after every interleaving of
accepts and steps of `pipeConn` calls (fewer than `2^63` accepted
connections, so that `int64` cannot wrap) the counter equals the number of calls that have
started and not yet returned, is not negative, and is 0 when every call has
returned. -/
theorem open_connections_counts_open_calls (evs : List TunnelEvent)
    (hlen : evs.count TunnelEvent.accept < 2 ^ 63) :
    (Tunnel.init.run evs).stats.openConnections = ((Tunnel.init.run evs).openCalls : Int)
    ∧ 0 ≤ (Tunnel.init.run evs).stats.openConnections
    ∧ ((∀ st ∈ (Tunnel.init.run evs).conns, st = PipeState.returned) →
        (Tunnel.init.run evs).stats.openConnections = Tunnel.init.stats.openConnections)
    ∧ (∀ (path : List PipeEvent) (amounts : List Int),
        pipeConnRun PipeState.created path = some (PipeState.returned, amounts) →
        amounts = [1, -1])
    ∧ pipeConnRun PipeState.created [PipeEvent.start, PipeEvent.dialFailed]
        = some (PipeState.returned, [1, -1])
    ∧ (∀ err : Bool,
        pipeConnRun PipeState.created
            [PipeEvent.start, PipeEvent.dialOk, PipeEvent.relayDone err]
          = some (PipeState.returned, [1, -1])) := by
  have hinv : (Tunnel.init.run evs).stats.openConnections
      = ((Tunnel.init.run evs).openCalls : Int) :=
    run_counts evs Tunnel.init rfl (by simpa [Tunnel.init] using hlen)
  refine ⟨hinv, ?_, ?_, pipeConnRun_amounts, rfl, fun _ => rfl⟩
  · rw [hinv]
    exact Int.ofNat_nonneg _
  · intro hall
    rw [hinv]
    have hz : (Tunnel.init.run evs).openCalls = 0 := by
      unfold Tunnel.openCalls
      rw [List.countP_eq_zero]
      intro st hst
      rw [hall st hst]
      decide
    rw [hz]
    rfl

theorem open_connections_counts_open_calls_witness :
    (Tunnel.init.run
        [TunnelEvent.accept, TunnelEvent.accept,
         TunnelEvent.conn 0 PipeEvent.start, TunnelEvent.conn 1 PipeEvent.start]).stats
      = { openConnections := 2 }
    ∧ (Tunnel.init.run
        [TunnelEvent.accept, TunnelEvent.accept,
         TunnelEvent.conn 0 PipeEvent.start, TunnelEvent.conn 1 PipeEvent.start,
         TunnelEvent.conn 0 PipeEvent.dialFailed, TunnelEvent.conn 1 PipeEvent.dialOk,
         TunnelEvent.conn 1 (PipeEvent.relayDone true)]).stats.openConnections
      = Tunnel.init.stats.openConnections :=
  ⟨by decide,
    (open_connections_counts_open_calls
      [TunnelEvent.accept, TunnelEvent.accept,
       TunnelEvent.conn 0 PipeEvent.start, TunnelEvent.conn 1 PipeEvent.start,
       TunnelEvent.conn 0 PipeEvent.dialFailed, TunnelEvent.conn 1 PipeEvent.dialOk,
       TunnelEvent.conn 1 (PipeEvent.relayDone true)] (by decide)).2.2.1 (by decide)⟩

end GoProxy
